import Mathlib

/-!
The in-memory user store of `handlers/user_handler.go`.

A shallow embedding of the package-level `database` (a `map[int]User` guarded by a
`sync.RWMutex`) and of the functions that read and write it: `generateID`,
`CreateUser`, `getPaginatedUsers`, `getUserByID`, `updateUser`, `deleteUser` and
`IsValidCredentials`.

* Go's `int` is modelled by `Int`; the arithmetic of `getPaginatedUsers`, whose operands
  come from the query string, wraps at 64 bits (`wrapInt`).
* The map is an association list with pairwise distinct keys (`AList`), so `len` is the
  length of its entry list.
* A `for ... range` loop over the map visits every entry once in an order the language
  leaves open; the order of one loop is a `Range`, a permutation of the entries.
* A run-time panic (slice bounds out of range) is the result `none`.
* Every function of the source takes the lock for its whole body except `CreateUser`,
  which takes it twice (once inside `generateID`, once for the insertion); the sequential
  functions below are the bodies run without interference, and `stepCaller` splits
  `CreateUser` at the point where the lock is released.
-/

namespace Handlers

/-- The struct `User`. -/
structure User where
  ID : Int
  Username : String
  Password : String
deriving DecidableEq, Repr

/-- The zero value of `User`, which a map read yields for a missing key. -/
def User.zero : User := ⟨0, "", ""⟩

/-- One entry of the map: a key and the record stored under it. -/
abbrev Entry := Sigma (fun _ : Int => User)

/-- The package-level `database`: its field `users`, a `map[int]User`. -/
structure Database where
  users : AList (fun _ : Int => User)

/-- The state `make(map[int]User)` the package starts in. -/
def Database.empty : Database := ⟨∅⟩

/-- Value of `len(database.users)`. -/
def Database.len (db : Database) : Int := (db.users.entries.length : Int)

/-- The order in which one `range` loop over `database.users` visits the entries. -/
structure Range (db : Database) where
  visit : List Entry
  perm : visit.Perm db.users.entries

/-- The range order that follows the representation of the map. -/
def Range.ofEntries (db : Database) : Range db := ⟨db.users.entries, List.Perm.refl _⟩

/-- Two's-complement wrap-around of a 64-bit `int`. -/
def wrapInt (x : Int) : Int := (x + 2 ^ 63) % 2 ^ 64 - 2 ^ 63

/-- The function `generateID`: `len(database.users) + 1`. -/
def generateID (db : Database) : Int := db.len + 1

/-- The function `CreateUser`: the returned `(User, error)` and the database afterwards. -/
def CreateUser (db : Database) (username password : String) :
    (User × Option String) × Database :=
  let newUser : User := { ID := generateID db, Username := username, Password := password }
  ((newUser, none), { users := db.users.insert newUser.ID newUser })

/-- Go's slice expression `s[low:high]` on a slice whose capacity equals its length:
it panics (`none`) unless `0 ≤ low ≤ high ≤ len`. -/
def sliceExpr {α : Type} (s : List α) (low high : Int) : Option (List α) :=
  if 0 ≤ low ∧ low ≤ high ∧ high ≤ (s.length : Int) then
    some ((s.drop low.toNat).take (high.toNat - low.toNat))
  else
    none

/-- The loop of `getPaginatedUsers` that appends every visited record to `users`. -/
def collectUsers (visit : List Entry) : List User :=
  visit.foldl (fun users e => users ++ [e.2]) []

/-- The function `getPaginatedUsers`; `none` is the panic of the final slice expression.
The slice `users` is made with capacity `len(database.users)` and receives that many
records, so its capacity is its length. -/
def getPaginatedUsers (db : Database) (r : Range db) (page pageSize : Int) :
    Option (List User) :=
  let startIndex := wrapInt (wrapInt (page - 1) * pageSize)
  let endIndex := wrapInt (startIndex + pageSize)
  let users := collectUsers r.visit
  let startIndex := if startIndex < 0 then 0 else startIndex
  let endIndex := if endIndex > (users.length : Int) then (users.length : Int) else endIndex
  sliceExpr users startIndex endIndex

/-- The function `getUserByID`: the comma-ok read of the map. -/
def getUserByID (db : Database) (userID : Int) : User × Bool :=
  match db.users.lookup userID with
  | some user => (user, true)
  | none => (User.zero, false)

/-- The error value built by `fmt.Errorf("user with ID %d not found", userID)`. -/
def notFound (userID : Int) : String :=
  "user with ID " ++ toString userID ++ " not found"

/-- The function `updateUser`: the returned `error` (`none` is `nil`) and the database
afterwards. -/
def updateUser (db : Database) (userID : Int) (updatedUser : User) :
    Option String × Database :=
  match db.users.lookup userID with
  | none => (some (notFound userID), db)
  | some _ => (none, { users := db.users.insert userID updatedUser })

/-- The function `deleteUser`: the returned `error` (`none` is `nil`) and the database
afterwards. -/
def deleteUser (db : Database) (userID : Int) : Option String × Database :=
  match db.users.lookup userID with
  | none => (some (notFound userID), db)
  | some _ => (none, { users := db.users.erase userID })

/-- The loop of `IsValidCredentials`, which returns at the first matching record. -/
def credentialsLoop (username password : String) : List Entry → Bool
  | [] => false
  | e :: rest =>
    if e.2.Username = username ∧ e.2.Password = password then true
    else credentialsLoop username password rest

/-- The function `IsValidCredentials`. -/
def IsValidCredentials (db : Database) (r : Range db) (username password : String) : Bool :=
  credentialsLoop username password r.visit

/-- A call of one of the three mutating functions. -/
inductive Call where
  | create (username password : String)
  | update (userID : Int) (updatedUser : User)
  | delete (userID : Int)

/-- Runs the calls one after the other; returns the final database and the records
returned by the `CreateUser` calls, in call order. -/
def runCalls : Database → List Call → Database × List User
  | db, [] => (db, [])
  | db, Call.create username password :: rest =>
    let r := CreateUser db username password
    let out := runCalls r.2 rest
    (out.1, r.1.1 :: out.2)
  | db, Call.update userID updatedUser :: rest => runCalls (updateUser db userID updatedUser).2 rest
  | db, Call.delete userID :: rest => runCalls (deleteUser db userID).2 rest

/-- How far one caller of `CreateUser` has come: not yet in `generateID`; past the
`Unlock` of `generateID`, with `newUser` built, and not yet past the second `Lock`;
or returned. -/
inductive Progress where
  | called
  | allocated (newUser : User)
  | returned (newUser : User)
deriving DecidableEq, Repr

/-- One goroutine that runs `CreateUser(username, password)`. -/
structure Caller where
  username : String
  password : String
  progress : Progress
deriving DecidableEq, Repr

/-- The next critical section of a caller of `CreateUser`: first the body of `generateID`
(the lock is released when it returns), then the insertion under the second `Lock`. -/
def stepCaller (db : Database) (c : Caller) : Database × Caller :=
  match c.progress with
  | Progress.called =>
    let newUser : User := { ID := generateID db, Username := c.username, Password := c.password }
    (db, { c with progress := Progress.allocated newUser })
  | Progress.allocated newUser =>
    ({ users := db.users.insert newUser.ID newUser },
      { c with progress := Progress.returned newUser })
  | Progress.returned _ => (db, c)

/-- Runs the callers under a schedule: each number names the caller that takes the lock
next and runs its next critical section. -/
def runSchedule : Database → List Caller → List Nat → Database × List Caller
  | db, callers, [] => (db, callers)
  | db, callers, i :: rest =>
    match callers.get? i with
    | none => runSchedule db callers rest
    | some c =>
      let r := stepCaller db c
      runSchedule r.1 (callers.set i r.2) rest

/-- The two calls with which `main` seeds the store. -/
def seeded : Database :=
  (CreateUser (CreateUser Database.empty "user1" "password1").2 "user2" "password2").2

/-- Every key of the map is the `ID` field of the record stored under it. -/
def KeyIsID (db : Database) : Prop := ∀ e ∈ db.users.entries, e.1 = e.2.ID

instance (db : Database) : Decidable (KeyIsID db) := by
  unfold KeyIsID
  infer_instance

/-- The entries at positions `offset, ..., offset + pageSize - 1` of an enumeration, as far
as they exist. -/
def pageWindow (visit : List Entry) (offset pageSize : Nat) : List Entry :=
  (visit.drop offset).take pageSize

/-! ## Auxiliary facts -/

theorem wrapInt_of_inRange (x : Int) (hlo : -2 ^ 63 ≤ x) (hhi : x < 2 ^ 63) : wrapInt x = x := by
  unfold wrapInt
  omega

theorem collectUsers_aux (visit : List Entry) (acc : List User) :
    visit.foldl (fun users e => users ++ [e.2]) acc = acc ++ visit.map (fun e => e.2) := by
  induction visit generalizing acc with
  | nil => simp
  | cons e rest ih => simp [ih]

theorem collectUsers_eq_map (visit : List Entry) :
    collectUsers visit = visit.map (fun e => e.2) := by
  simpa [collectUsers] using collectUsers_aux visit []

theorem collectUsers_length (db : Database) (r : Range db) :
    ((collectUsers r.visit).length : Int) = db.len := by
  simp [collectUsers_eq_map, Database.len, r.perm.length_eq]

theorem credentialsLoop_iff (username password : String) (visit : List Entry) :
    credentialsLoop username password visit = true ↔
      ∃ e ∈ visit, e.2.Username = username ∧ e.2.Password = password := by
  induction visit with
  | nil => simp [credentialsLoop]
  | cons e rest ih =>
    by_cases h : e.2.Username = username ∧ e.2.Password = password
    · simp [credentialsLoop, h]
    · simp only [credentialsLoop, if_neg h, ih, List.mem_cons, exists_eq_or_imp]
      tauto

theorem mem_users_iff_getUserByID (db : Database) (userID : Int) :
    userID ∈ db.users ↔ (getUserByID db userID).2 = true := by
  unfold getUserByID
  cases h : db.users.lookup userID with
  | none => simpa using AList.lookup_eq_none.mp h
  | some user =>
    have : (db.users.lookup userID).isSome = true := by simp [h]
    simpa using AList.lookup_isSome.mp this

theorem getUserByID_updateUser (db : Database) (userID : Int) (updatedUser : User)
    (h : userID ∈ db.users) :
    (updateUser db userID updatedUser).1 = none ∧
      getUserByID (updateUser db userID updatedUser).2 userID = (updatedUser, true) := by
  obtain ⟨user, hu⟩ := Option.isSome_iff_exists.mp (AList.lookup_isSome.mpr h)
  simp [updateUser, hu, getUserByID, AList.lookup_insert]

theorem stepCaller_twice (db : Database) (username password : String) :
    stepCaller (stepCaller db ⟨username, password, Progress.called⟩).1
        (stepCaller db ⟨username, password, Progress.called⟩).2 =
      ((CreateUser db username password).2,
        ⟨username, password, Progress.returned (CreateUser db username password).1.1⟩) := by
  simp [stepCaller, CreateUser]

theorem createUser_len_of_keys_le (db : Database) (username password : String)
    (h : ∀ k, k ∈ db.users → 1 ≤ k ∧ k ≤ db.len) :
    (CreateUser db username password).2.users.entries.length = db.users.entries.length + 1 ∧
      ∀ k, k ∈ (CreateUser db username password).2.users →
        1 ≤ k ∧ k ≤ (CreateUser db username password).2.len := by
  have hfresh : generateID db ∉ db.users := by
    intro hm
    have := (h _ hm).2
    unfold generateID at this
    omega
  have hent : (CreateUser db username password).2.users.entries.length =
      db.users.entries.length + 1 := by
    show (db.users.insert (generateID db) _).entries.length = _
    rw [AList.insert_entries_of_neg hfresh]
    rfl
  refine ⟨hent, ?_⟩
  intro k hk
  have hlen : (CreateUser db username password).2.len = db.len + 1 := by
    simp [Database.len, hent]
  rw [hlen]
  simp only [CreateUser, AList.mem_insert] at hk
  rcases hk with hk | hk
  · subst hk
    simp only [generateID, Database.len]
    omega
  · have := h k hk
    omega

theorem runCalls_creates (creds : List (String × String)) :
    ∀ db : Database, (∀ k, k ∈ db.users → 1 ≤ k ∧ k ≤ db.len) →
      (runCalls db (creds.map fun c => Call.create c.1 c.2)).2.map (fun u => u.ID) =
          (List.range' (db.users.entries.length + 1) creds.length).map (fun k : Nat => (k : Int)) ∧
        (runCalls db (creds.map fun c => Call.create c.1 c.2)).1.users.entries.length =
          db.users.entries.length + creds.length ∧
        (runCalls db (creds.map fun c => Call.create c.1 c.2)).2.map
          (fun u => (u.Username, u.Password)) = creds := by
  induction creds with
  | nil => intro db _; simp [runCalls]
  | cons c rest ih =>
    intro db h
    obtain ⟨hlen, hkeys⟩ := createUser_len_of_keys_le db c.1 c.2 h
    obtain ⟨h1, h2, h3⟩ := ih (CreateUser db c.1 c.2).2 hkeys
    simp only [List.map_cons, runCalls, List.length_cons, List.range'_succ]
    refine ⟨?_, ?_, ?_⟩
    · rw [h1, hlen]
      simp [CreateUser, generateID, Database.len]
    · rw [h2, hlen]
      omega
    · rw [h3]
      simp [CreateUser]

theorem sliceExpr_window {α : Type} (l : List α) (s q : Nat) (hs : s ≤ l.length) :
    sliceExpr l (s : Int)
        (if ((s : Int) + (q : Int)) > (l.length : Int) then (l.length : Int)
          else (s : Int) + (q : Int)) =
      some ((l.drop s).take q) := by
  unfold sliceExpr
  by_cases hq : ((s : Int) + (q : Int)) > (l.length : Int)
  · rw [if_pos hq, if_pos ⟨by omega, by omega, le_refl _⟩]
    congr 1
    simp only [Int.toNat_ofNat]
    rw [List.take_eq_take]
    simp only [List.length_drop]
    omega
  · rw [if_neg hq, if_pos ⟨by omega, by omega, by omega⟩]
    congr 1
    have hsum : ((s : Int) + (q : Int)).toNat = s + q := by omega
    simp only [Int.toNat_ofNat, hsum]
    rw [List.take_eq_take]
    simp only [List.length_drop]
    omega

theorem pageWindow_sublist (visit : List Entry) (offset pageSize : Nat) :
    (pageWindow visit offset pageSize).Sublist visit :=
  (List.take_sublist _ _).trans (List.drop_sublist _ _)

theorem keyIsID_insert (db : Database) (k : Int) (user : User) (hk : k = user.ID)
    (h : KeyIsID db) : KeyIsID { users := db.users.insert k user } := by
  intro e he
  have he2 : e ∈ (Sigma.mk k user : Entry) :: List.kerase k db.users.entries := by
    simpa [AList.insert_entries] using he
  rcases List.mem_cons.mp he2 with rfl | hmem
  · exact hk
  · exact h e ((List.kerase_sublist _ _).subset hmem)

theorem createUser_preserves_keyIsID (db : Database) (username password : String)
    (h : KeyIsID db) : KeyIsID (CreateUser db username password).2 :=
  keyIsID_insert db _ _ rfl h

theorem deleteUser_preserves_keyIsID (db : Database) (userID : Int) (h : KeyIsID db) :
    KeyIsID (deleteUser db userID).2 := by
  unfold deleteUser
  cases hl : db.users.lookup userID with
  | none => exact h
  | some user =>
    intro e he
    exact h e ((List.kerase_sublist _ _).subset he)

theorem updateUser_preserves_keyIsID_of_id (db : Database) (userID : Int) (updatedUser : User)
    (hid : updatedUser.ID = userID) (h : KeyIsID db) :
    KeyIsID (updateUser db userID updatedUser).2 := by
  unfold updateUser
  cases hl : db.users.lookup userID with
  | none => exact h
  | some user => exact keyIsID_insert db _ _ hid.symm h

theorem getPaginatedUsers_panics_of_offset_gt (db : Database) (r : Range db)
    (page pageSize : Int) (hpage : 1 ≤ page) (hsize : 1 ≤ pageSize)
    (hint : (page - 1) * pageSize < 2 ^ 63) (hoff : db.len < (page - 1) * pageSize) :
    getPaginatedUsers db r page pageSize = none := by
  have hp0 : 0 ≤ page - 1 := by omega
  have hoff0 : 0 ≤ (page - 1) * pageSize := mul_nonneg hp0 (by omega)
  have hple : page - 1 ≤ (page - 1) * pageSize := by nlinarith
  have hw1 : wrapInt (page - 1) = page - 1 := wrapInt_of_inRange _ (by omega) (by omega)
  have hw2 : wrapInt ((page - 1) * pageSize) = (page - 1) * pageSize :=
    wrapInt_of_inRange _ (by omega) (by omega)
  have hn := collectUsers_length db r
  unfold getPaginatedUsers
  simp only [hw1, hw2, sliceExpr, hn]
  rw [if_neg (not_lt.mpr hoff0)]
  apply if_neg
  rintro ⟨_, h2, h3⟩
  omega

theorem isValidCredentials_seeded :
    IsValidCredentials seeded (Range.ofEntries seeded) "user1" "password1" = true ∧
      IsValidCredentials seeded (Range.ofEntries seeded) "user1" "password2" = false := by
  decide

/-! ## The claims -/

/-- C3: for every store state, username and password, reading the id that `CreateUser`
returned from the resulting store finds the returned record itself, whose `Username` and
`Password` are the arguments of the call; `CreateUser` returns a nil error. -/
theorem createUser_getUserByID_roundtrip (db : Database) (username password : String) :
    getUserByID (CreateUser db username password).2 (CreateUser db username password).1.1.ID =
        ((CreateUser db username password).1.1, true) ∧
      (CreateUser db username password).1.1.Username = username ∧
      (CreateUser db username password).1.1.Password = password ∧
      (CreateUser db username password).1.2 = none := by
  simp [CreateUser, getUserByID, AList.lookup_insert]

/-- C4: `updateUser` and `deleteUser` return an error exactly when the map has no record
under the given id (the error names that id); that is the case for an id `deleteUser` has
just been called on; and a call that returns an error leaves the database as it was. -/
theorem updateUser_deleteUser_notFound (db : Database) (userID : Int) (updatedUser : User) :
    ((updateUser db userID updatedUser).1 ≠ none ↔ userID ∉ db.users) ∧
      ((deleteUser db userID).1 ≠ none ↔ userID ∉ db.users) ∧
      (userID ∉ db.users ↔ (getUserByID db userID).2 = false) ∧
      (userID ∉ db.users → (updateUser db userID updatedUser).1 = some (notFound userID)) ∧
      (userID ∉ db.users → (deleteUser db userID).1 = some (notFound userID)) ∧
      userID ∉ (deleteUser db userID).2.users ∧
      ((updateUser db userID updatedUser).1 ≠ none →
        (updateUser db userID updatedUser).2 = db) ∧
      ((deleteUser db userID).1 ≠ none → (deleteUser db userID).2 = db) := by
  have hget := mem_users_iff_getUserByID db userID
  cases h : db.users.lookup userID with
  | none =>
    have hn : userID ∉ db.users := AList.lookup_eq_none.mp h
    simp [updateUser, deleteUser, h, hn, hget.not.mp hn]
  | some user =>
    have hm : userID ∈ db.users := AList.lookup_isSome.mp (by simp [h])
    simp [updateUser, deleteUser, h, hm, hget.mp hm, AList.mem_erase]

/-- C8: whatever order the loop visits the records in, `IsValidCredentials` returns true
exactly when some record of the store has both the given `Username` and the given
`Password`; so it returns false when no single record matches both, and on the empty
store. -/
theorem isValidCredentials_iff (db : Database) (r : Range db) (username password : String) :
    (IsValidCredentials db r username password = true ↔
        ∃ e ∈ db.users.entries, e.2.Username = username ∧ e.2.Password = password) ∧
      ((∀ e ∈ db.users.entries, ¬ (e.2.Username = username ∧ e.2.Password = password)) →
        IsValidCredentials db r username password = false) ∧
      (∀ r0 : Range Database.empty,
        IsValidCredentials Database.empty r0 username password = false) := by
  have key : ∀ (d : Database) (q : Range d),
      IsValidCredentials d q username password = true ↔
        ∃ e ∈ d.users.entries, e.2.Username = username ∧ e.2.Password = password := by
    intro d q
    unfold IsValidCredentials
    rw [credentialsLoop_iff]
    constructor
    · rintro ⟨e, he, hm⟩
      exact ⟨e, q.perm.mem_iff.mp he, hm⟩
    · rintro ⟨e, he, hm⟩
      exact ⟨e, q.perm.mem_iff.mpr he, hm⟩
  refine ⟨key db r, ?_, ?_⟩
  · intro hno
    cases hv : IsValidCredentials db r username password with
    | false => rfl
    | true =>
      obtain ⟨e, he, hm⟩ := (key db r).mp hv
      exact absurd hm (hno e he)
  · intro r0
    cases hv : IsValidCredentials Database.empty r0 username password with
    | false => rfl
    | true =>
      obtain ⟨e, he, _⟩ := (key Database.empty r0).mp hv
      simp [Database.empty] at he

/-- C1: on the calls `CreateUser("user1", "password1")`, `CreateUser("user2", "password2")`,
`deleteUser(1)`, `CreateUser("user3", "password3")` from the empty store, the three
`CreateUser` calls return the ids 1, 2 and 2: the third id is not greater than the second,
it is issued while record 2 is present, and the third call overwrites that record. -/
theorem createUser_reissues_id :
    (runCalls Database.empty
        [Call.create "user1" "password1", Call.create "user2" "password2", Call.delete 1,
          Call.create "user3" "password3"]).2.map (fun u => u.ID) = [1, 2, 2] ∧
      getUserByID
        (runCalls Database.empty
          [Call.create "user1" "password1", Call.create "user2" "password2", Call.delete 1]).1 2 =
        (⟨2, "user2", "password2"⟩, true) ∧
      getUserByID
        (runCalls Database.empty
          [Call.create "user1" "password1", Call.create "user2" "password2", Call.delete 1,
            Call.create "user3" "password3"]).1 2 =
        (⟨2, "user3", "password3"⟩, true) ∧
      (runCalls Database.empty
        [Call.create "user1" "password1", Call.create "user2" "password2", Call.delete 1,
          Call.create "user3" "password3"]).1.len = 1 := by
  decide

/-- C5: on the seeded store, `updateUser(1, User{Username: "alice", Password: "password1"})`
(the `ID` field left at its zero value, as a request body without `id` decodes) returns nil,
and afterwards `getUserByID(1)` finds a record whose `ID` is 0, not 1. -/
theorem updateUser_overwrites_id :
    (getUserByID seeded 1).1.ID = 1 ∧
      (updateUser seeded 1 ⟨0, "alice", "password1"⟩).1 = none ∧
      getUserByID (updateUser seeded 1 ⟨0, "alice", "password1"⟩).2 1 =
        (⟨0, "alice", "password1"⟩, true) ∧
      (getUserByID (updateUser seeded 1 ⟨0, "alice", "password1"⟩).2 1).1.ID ≠ 1 := by
  decide

/-- C9: the store reached from the empty one by `CreateUser("user1", "password1")` has every
key equal to the `ID` of its record; the further call `updateUser(1, User{ID: 7, Username:
"user1", Password: "secret"})` returns nil and leaves key 1 holding a record whose `ID`
is 7, so `updateUser` does not preserve the invariant. -/
theorem updateUser_breaks_keyIsID :
    KeyIsID (runCalls Database.empty [Call.create "user1" "password1"]).1 ∧
      (updateUser (runCalls Database.empty [Call.create "user1" "password1"]).1 1
        ⟨7, "user1", "secret"⟩).1 = none ∧
      ¬ KeyIsID (runCalls Database.empty
        [Call.create "user1" "password1", Call.update 1 ⟨7, "user1", "secret"⟩]).1 := by
  decide

/-- C6: on the seeded store of two records, `getPaginatedUsers(2, 10)` (offset 10, beyond
the two records) panics on the slice expression `users[10:2]` whatever the order of the
loop, and so it does on the empty store (`users[10:0]`); `getPaginatedUsers(1, 10)` on the
empty store returns the empty slice. -/
theorem getPaginatedUsers_panics_beyond_end :
    (∀ r : Range seeded, getPaginatedUsers seeded r 2 10 = none) ∧
      (∀ r : Range Database.empty, getPaginatedUsers Database.empty r 2 10 = none) ∧
      (∀ r : Range Database.empty, getPaginatedUsers Database.empty r 1 10 = some []) := by
  have hs : seeded.len = 2 := by decide
  have he : Database.empty.len = 0 := by decide
  refine ⟨?_, ?_, ?_⟩
  · intro r
    have hl := collectUsers_length seeded r
    rw [hs] at hl
    simp only [getPaginatedUsers, sliceExpr, hl]
    exact if_neg (by decide)
  · intro r
    have hl := collectUsers_length Database.empty r
    rw [he] at hl
    simp only [getPaginatedUsers, sliceExpr, hl]
    exact if_neg (by decide)
  · intro r
    have hl := collectUsers_length Database.empty r
    rw [he] at hl
    have hnil : collectUsers r.visit = [] := by
      apply List.eq_nil_of_length_eq_zero
      exact_mod_cast hl
    simp only [getPaginatedUsers, sliceExpr, hnil]
    decide

/-- C10: two callers `CreateUser("user1", "password1")` and `CreateUser("user2",
"password2")` on the empty store. When each runs both of its critical sections before the
other starts, they return the ids 1 and 2. When the second caller runs `generateID`
between the first caller's `generateID` and its insertion (schedule 0, 1, 0, 1), both
return the id 1 and the store ends with one record, that of the second caller: the first
caller's record is lost. -/
theorem createUser_interleaving_duplicates_id :
    (runSchedule Database.empty
        [⟨"user1", "password1", Progress.called⟩, ⟨"user2", "password2", Progress.called⟩]
        [0, 0, 1, 1]).2 =
        [⟨"user1", "password1", Progress.returned ⟨1, "user1", "password1"⟩⟩,
          ⟨"user2", "password2", Progress.returned ⟨2, "user2", "password2"⟩⟩] ∧
      (runSchedule Database.empty
        [⟨"user1", "password1", Progress.called⟩, ⟨"user2", "password2", Progress.called⟩]
        [0, 1, 0, 1]).2 =
        [⟨"user1", "password1", Progress.returned ⟨1, "user1", "password1"⟩⟩,
          ⟨"user2", "password2", Progress.returned ⟨1, "user2", "password2"⟩⟩] ∧
      (runSchedule Database.empty
        [⟨"user1", "password1", Progress.called⟩, ⟨"user2", "password2", Progress.called⟩]
        [0, 1, 0, 1]).1.len = 1 ∧
      getUserByID (runSchedule Database.empty
        [⟨"user1", "password1", Progress.called⟩, ⟨"user2", "password2", Progress.called⟩]
        [0, 1, 0, 1]).1 1 = (⟨1, "user2", "password2"⟩, true) := by
  decide

/-- C2: for every list of `n` (username, password) pairs, `n` successive `CreateUser`
calls on the empty store return the ids 1, 2, ..., `n` in this order (so pairwise distinct
ids), the returned records carry the given names and passwords, and the store ends with
exactly `n` records. -/
theorem createUser_sequence_ids (creds : List (String × String)) :
    (runCalls Database.empty (creds.map fun c => Call.create c.1 c.2)).2.map (fun u => u.ID) =
        (List.range' 1 creds.length).map (fun k : Nat => (k : Int)) ∧
      ((runCalls Database.empty (creds.map fun c => Call.create c.1 c.2)).2.map
        (fun u => u.ID)).Nodup ∧
      (runCalls Database.empty (creds.map fun c => Call.create c.1 c.2)).2.map
        (fun u => (u.Username, u.Password)) = creds ∧
      (runCalls Database.empty (creds.map fun c => Call.create c.1 c.2)).1.len =
        (creds.length : Int) := by
  have hempty : ∀ k, k ∈ Database.empty.users → 1 ≤ k ∧ k ≤ Database.empty.len := by
    intro k hk
    exact absurd hk (AList.not_mem_empty k)
  obtain ⟨h1, h2, h3⟩ := runCalls_creates creds Database.empty hempty
  have h0 : Database.empty.users.entries.length = 0 := rfl
  rw [h0] at h1 h2
  refine ⟨by simpa using h1, ?_, h3, ?_⟩
  · rw [h1]
    exact (List.nodup_range' _ _).map Nat.cast_injective
  · simp [Database.len, h2]

/-- C7, counterexample: on the store reached by the two seeding calls and
`updateUser(2, User{ID: 1, Username: "user1", Password: "password1"})`, which returns nil,
keys 1 and 2 hold equal records, and `getPaginatedUsers(1, 10)` (offset 0, two records)
returns that record twice. -/
theorem getPaginatedUsers_repeats_record :
    (updateUser seeded 2 ⟨1, "user1", "password1"⟩).1 = none ∧
      ((1 : Int) - 1) * 10 ≤ (updateUser seeded 2 ⟨1, "user1", "password1"⟩).2.len ∧
      getPaginatedUsers (updateUser seeded 2 ⟨1, "user1", "password1"⟩).2
          (Range.ofEntries (updateUser seeded 2 ⟨1, "user1", "password1"⟩).2) 1 10 =
        some [⟨1, "user1", "password1"⟩, ⟨1, "user1", "password1"⟩] ∧
      ¬ ([⟨1, "user1", "password1"⟩, ⟨1, "user1", "password1"⟩] : List User).Nodup := by
  decide

/-- C7, amended: for every store state that fits the address space (fewer than `2 ^ 62`
records), every loop order, every `page ≥ 1` and every `pageSize ≥ 1` that is an `int`,
when the offset `(page - 1) * pageSize` is at most the number `n` of records,
`getPaginatedUsers` does not panic and returns the records of the entries at positions
offset up to `min (offset + pageSize, n)` of the loop order. That window has
`min (pageSize, n - offset)` entries, each an entry of the store, and no entry of the map
is in it twice (its keys are pairwise distinct). The returned records are pairwise distinct
when no two keys of the store hold equal records, in particular when every key is the `ID`
of its record. -/
theorem getPaginatedUsers_window (db : Database) (r : Range db) (page pageSize : Int)
    (hpage : 1 ≤ page) (hsize : 1 ≤ pageSize) (hint : pageSize < 2 ^ 63)
    (hlen : db.len < 2 ^ 62) (hoff : (page - 1) * pageSize ≤ db.len) :
    getPaginatedUsers db r page pageSize =
        some ((pageWindow r.visit ((page - 1) * pageSize).toNat pageSize.toNat).map
          fun e => e.2) ∧
      ((pageWindow r.visit ((page - 1) * pageSize).toNat pageSize.toNat).length : Int) =
        min pageSize (db.len - (page - 1) * pageSize) ∧
      (∀ e ∈ pageWindow r.visit ((page - 1) * pageSize).toNat pageSize.toNat,
        e ∈ db.users.entries) ∧
      ((pageWindow r.visit ((page - 1) * pageSize).toNat pageSize.toNat).map
        fun e => e.1).Nodup ∧
      ((∀ e₁ ∈ db.users.entries, ∀ e₂ ∈ db.users.entries, e₁.2 = e₂.2 → e₁.1 = e₂.1) →
        ((pageWindow r.visit ((page - 1) * pageSize).toNat pageSize.toNat).map
          fun e => e.2).Nodup) ∧
      (KeyIsID db →
        ((pageWindow r.visit ((page - 1) * pageSize).toNat pageSize.toNat).map
          fun e => e.2).Nodup) := by
  have hp0 : 0 ≤ page - 1 := by omega
  have hoff0 : 0 ≤ (page - 1) * pageSize := mul_nonneg hp0 (by omega)
  have hple : page - 1 ≤ (page - 1) * pageSize := by nlinarith
  have hsum : (page - 1) * pageSize + pageSize < 2 ^ 63 := by
    rcases eq_or_lt_of_le hp0 with h | h
    · rw [← h]
      simpa using hint
    · have : pageSize ≤ (page - 1) * pageSize := by nlinarith
      omega
  have hw1 : wrapInt (page - 1) = page - 1 := wrapInt_of_inRange _ (by omega) (by omega)
  have hw2 : wrapInt ((page - 1) * pageSize) = (page - 1) * pageSize :=
    wrapInt_of_inRange _ (by omega) (by omega)
  have hw3 : wrapInt ((page - 1) * pageSize + pageSize) = (page - 1) * pageSize + pageSize :=
    wrapInt_of_inRange _ (by omega) (by omega)
  have hvis : (r.visit.length : Int) = db.len := by
    simp [Database.len, r.perm.length_eq]
  obtain ⟨s, hs⟩ := Int.eq_ofNat_of_zero_le hoff0
  obtain ⟨q, hq⟩ := Int.eq_ofNat_of_zero_le (show 0 ≤ pageSize by omega)
  have hkeys : (r.visit.map fun e => e.1).Nodup :=
    (r.perm.map _).nodup_iff.mpr db.users.nodupKeys
  have hwin := pageWindow_sublist r.visit s q
  have hwkeys : ((pageWindow r.visit s q).map fun e => e.1).Nodup :=
    hkeys.sublist (hwin.map _)
  have hmem : ∀ e ∈ pageWindow r.visit s q, e ∈ db.users.entries := fun e he =>
    r.perm.mem_iff.mp (hwin.subset he)
  have hvals : (∀ e₁ ∈ db.users.entries, ∀ e₂ ∈ db.users.entries, e₁.2 = e₂.2 → e₁.1 = e₂.1) →
      ((pageWindow r.visit s q).map fun e => e.2).Nodup := by
    intro hinj
    refine List.Nodup.map_on ?_ (List.Nodup.of_map _ hwkeys)
    intro x hx y hy hxy
    have hk := hinj x (hmem x hx) y (hmem y hy) hxy
    cases x
    cases y
    simp only at hk hxy
    subst hk
    subst hxy
    rfl
  refine ⟨?_, ?_, ?_, ?_, ?_, ?_⟩
  · unfold getPaginatedUsers
    simp only [hw1, hw2, hw3]
    rw [if_neg (not_lt.mpr hoff0), hs]
    simp only [hq, Int.toNat_ofNat]
    rw [sliceExpr_window _ s q (by rw [collectUsers_eq_map, List.length_map]; omega)]
    simp [collectUsers_eq_map, pageWindow]
  · rw [hs]
    simp only [hq, Int.toNat_ofNat, pageWindow, List.length_take, List.length_drop]
    omega
  · rw [hs]
    simpa only [hq, Int.toNat_ofNat] using hmem
  · rw [hs]
    simpa only [hq, Int.toNat_ofNat] using hwkeys
  · rw [hs]
    simpa only [hq, Int.toNat_ofNat] using hvals
  · intro hid
    rw [hs]
    simp only [hq, Int.toNat_ofNat]
    apply hvals
    intro e₁ h₁ e₂ h₂ h12
    rw [hid e₁ h₁, hid e₂ h₂, h12]

/-- Instance of `getPaginatedUsers_window` on the seeded store, where every key is the
`ID` of its record: page 1 of size 10 is both records of the loop order, and they are
distinct. -/
theorem getPaginatedUsers_window_witness :
    seeded.len < 2 ^ 62 ∧ ((1 : Int) - 1) * 10 ≤ seeded.len ∧ KeyIsID seeded ∧
      getPaginatedUsers seeded (Range.ofEntries seeded) 1 10 =
        some [⟨2, "user2", "password2"⟩, ⟨1, "user1", "password1"⟩] ∧
      ((pageWindow (Range.ofEntries seeded).visit (((1 : Int) - 1) * 10).toNat
        (10 : Int).toNat).map fun e => e.2).Nodup :=
  ⟨by decide, by decide, by decide,
    (getPaginatedUsers_window seeded (Range.ofEntries seeded) 1 10 (by decide) (by decide)
      (by decide) (by decide) (by decide)).1.trans (by decide),
    (getPaginatedUsers_window seeded (Range.ofEntries seeded) 1 10 (by decide) (by decide)
      (by decide) (by decide) (by decide)).2.2.2.2.2 (by decide)⟩

end Handlers
